import Mathlib

/-!
Verification of the chat-streaming core of AlsupOS (frontend store and chat
bubble view).

The development shallowly embeds:
* the reasoning-block parser of `ChatBubble` (`<think>` / `</think>` markers,
  first-occurrence search, JavaScript `substring` and `trim` semantics);
* `parseMessageContent` from `useAppStore.ts` (the anchored
  `<sources>(.*?)</sources>$` regex, JSON payload parsing with a fallback on
  malformed payloads);
* the chat slice of `useAppStore.ts`: `stopGeneration`, `sendMessage` with its
  WebSocket event handlers (`token`, `sources`, `done`) and the closure-held
  `fullResponse` accumulator, together with a small transport world tracking
  which WebSocket handles are open.

Strings are handled through their underlying character lists so that every
definition reduces inside the kernel.
-/

/-! ## Character-list machinery -/

/-- Boolean prefix test on character lists (JS `startsWith` at a position). -/
def isPref : List Char → List Char → Bool
  | [], _ => true
  | _ :: _, [] => false
  | a :: p, b :: l => a == b && isPref p l

/-- Does `pat` occur as a contiguous substring anywhere in the list? -/
def hasOccur (pat : List Char) : List Char → Bool
  | [] => isPref pat []
  | c :: cs => isPref pat (c :: cs) || hasOccur pat cs

/-- Index of the first occurrence of `pat`, JS `String.prototype.indexOf`
(`none` models the `-1` result). -/
def idxOf (pat : List Char) : List Char → Option Nat
  | [] => if isPref pat [] then some 0 else none
  | c :: t => if isPref pat (c :: t) then some 0 else (idxOf pat t).map (· + 1)

/-- Does the list end with `pat` (JS regex `$` anchoring after a literal)? -/
def endsWith (pat l : List Char) : Bool := isPref pat.reverse l.reverse

/-- ASCII whitespace trim on both ends, JS `String.prototype.trim`. -/
def trimChars (l : List Char) : List Char :=
  ((l.dropWhile Char.isWhitespace).reverse.dropWhile Char.isWhitespace).reverse

/-- String façade of `trimChars`. -/
def strTrim (s : String) : String := ⟨trimChars s.data⟩

/-- Concatenation of a list of strings in order. -/
def strJoin : List String → String
  | [] => ""
  | s :: rest => s ++ strJoin rest

/-- Interleave a separator between strings, like `Array.prototype.join`. -/
def strIntercalate (sep : String) : List String → String
  | [] => ""
  | [x] => x
  | x :: y :: rest => x ++ sep ++ strIntercalate sep (y :: rest)

/-- Split a character list at newline characters, JS `split("\n")`. -/
def splitLines : List Char → List (List Char)
  | [] => [[]]
  | '\n' :: t => [] :: splitLines t
  | c :: t =>
    match splitLines t with
    | [] => [[c]]
    | h :: r => (c :: h) :: r

/-- A pattern is self-overlap free: no nonempty proper suffix of it is one of
its prefixes.  Both reasoning and source markers satisfy this, which rules out
occurrences straddling the boundary between surrounding text and the marker. -/
def SelfFree (pat : List Char) : Prop :=
  ∀ k < pat.length, 0 < k → isPref (pat.drop k) pat = false

theorem strData_append (s t : String) : (s ++ t).data = s.data ++ t.data := by
  cases s; cases t; rfl

theorem isPref_append_self (p r : List Char) : isPref p (p ++ r) = true := by
  induction p with
  | nil => rfl
  | cons a p ih => simp [isPref, ih]

theorem isPref_iff_exists (p l : List Char) :
    isPref p l = true ↔ ∃ t, l = p ++ t := by
  induction p generalizing l with
  | nil => simp [isPref]
  | cons a p ih =>
    cases l with
    | nil => simp [isPref]
    | cons b l =>
      simp only [isPref, Bool.and_eq_true, beq_iff_eq, ih]
      constructor
      · rintro ⟨rfl, t, rfl⟩
        exact ⟨t, rfl⟩
      · rintro ⟨t, ht⟩
        rw [List.cons_append] at ht
        cases ht
        exact ⟨rfl, t, rfl⟩

theorem isPref_of_take {p l : List Char} {j : Nat}
    (h : isPref p (l.take j) = true) : isPref p l = true := by
  induction p generalizing l j with
  | nil => rfl
  | cons a p ih =>
    cases l with
    | nil => simpa using h
    | cons b l =>
      cases j with
      | zero => simp [isPref] at h
      | succ j =>
        simp only [List.take_succ_cons, isPref, Bool.and_eq_true] at h ⊢
        exact ⟨h.1, ih h.2⟩

theorem hasOccur_eq_false_iff (pat l : List Char) :
    hasOccur pat l = false ↔ ∀ i, isPref pat (l.drop i) = false := by
  induction l with
  | nil =>
    simp only [hasOccur, List.drop_nil]
    constructor
    · intro h i; exact h
    · intro h; exact h 0
  | cons c cs ih =>
    simp only [hasOccur, Bool.or_eq_false_iff, ih]
    constructor
    · rintro ⟨h0, h⟩ i
      cases i with
      | zero => exact h0
      | succ i => exact h i
    · intro h
      exact ⟨h 0, fun i => h (i + 1)⟩

theorem hasOccur_of_take {pat l : List Char} {k : Nat}
    (h : hasOccur pat (l.take k) = false) : ∀ i, isPref pat ((l.take k).drop i) = false :=
  (hasOccur_eq_false_iff pat (l.take k)).mp h

theorem isPref_refl (p : List Char) : isPref p p = true := by
  have := isPref_append_self p []
  simpa using this

theorem isPref_take (n : Nat) (l : List Char) : isPref (l.take n) l = true := by
  rw [isPref_iff_exists]
  exact ⟨l.drop n, (List.take_append_drop n l).symm⟩

theorem hasOccur_take {pat l : List Char} (k : Nat)
    (h : hasOccur pat l = false) : hasOccur pat (l.take k) = false := by
  rw [hasOccur_eq_false_iff] at h ⊢
  intro i
  have hne : pat ≠ [] := by
    intro hcon
    have := h 0
    rw [hcon] at this
    simp [isPref] at this
  by_cases hik : i ≤ k
  · have heq : (l.take k).drop i = (l.drop i).take (k - i) := by
      rw [List.take_drop, Nat.add_sub_cancel' hik]
    rw [heq]
    cases hp : isPref pat ((l.drop i).take (k - i)) with
    | false => rfl
    | true => exact absurd (isPref_of_take hp) (by simp [h i])
  · have heq : (l.take k).drop i = [] := by
      apply List.drop_eq_nil_of_le
      calc (l.take k).length ≤ k := by simp
        _ ≤ i := by omega
    rw [heq]
    cases pat with
    | nil => exact absurd rfl hne
    | cons c p => rfl

/-- No occurrence of `pat` starts strictly before the explicit `pat` in
`A ++ (pat ++ R)`, provided `A` holds no occurrence and `pat` is
self-overlap free. -/
theorem no_early_occurrence {pat A R : List Char}
    (hA : hasOccur pat A = false) (hsf : SelfFree pat) :
    ∀ i < A.length, isPref pat ((A ++ (pat ++ R)).drop i) = false := by
  intro i hi
  cases hp : isPref pat ((A ++ (pat ++ R)).drop i) with
  | false => rfl
  | true =>
    exfalso
    rw [List.drop_append_of_le_length (Nat.le_of_lt hi)] at hp
    rcases (isPref_iff_exists _ _).mp hp with ⟨t, ht⟩
    have hdlen : (A.drop i).length = A.length - i := by simp
    by_cases hlen : pat.length ≤ A.length - i
    · -- the occurrence would sit entirely inside A
      have htake : ((A.drop i) ++ (pat ++ R)).take pat.length = (A.drop i).take pat.length :=
        List.take_append_of_le_length (by rw [hdlen]; exact hlen)
      have heq : (A.drop i).take pat.length = pat := by
        rw [← htake, ht, List.take_left]
      have h1 : isPref pat ((A.drop i).take pat.length) = true := by
        rw [heq]; exact isPref_refl pat
      have h2 : isPref pat (A.drop i) = true := isPref_of_take h1
      have h3 := (hasOccur_eq_false_iff pat A).mp hA i
      simp [h2] at h3
    · -- the occurrence would straddle into the leading copy of pat
      push_neg at hlen
      set k := A.length - i with hk
      have hkpos : 0 < k := by omega
      have hklt : k < pat.length := hlen
      have hdrop := congrArg (List.drop k) ht
      rw [List.drop_append_of_le_length (Nat.le_of_eq hdlen.symm),
        List.drop_append_of_le_length (Nat.le_of_lt hklt)] at hdrop
      have hdd : (A.drop i).drop k = [] :=
        List.drop_eq_nil_of_le (Nat.le_of_eq hdlen)
      rw [hdd, List.nil_append] at hdrop
      -- hdrop : pat ++ R = pat.drop k ++ t
      have htk := congrArg (List.take (pat.length - k)) hdrop
      have hlen2 : (pat.drop k).length = pat.length - k := by simp
      rw [List.take_append_of_le_length (by omega),
        List.take_append_of_le_length (Nat.le_of_eq hlen2.symm),
        List.take_of_length_le (Nat.le_of_eq hlen2)] at htk
      -- htk : pat.take (pat.length - k) = pat.drop k
      have hself : isPref (pat.drop k) pat = true := by
        rw [← htk]; exact isPref_take _ _
      have := hsf k hklt hkpos
      simp [hself] at this

/-- `idxOf` finds the marked occurrence in `A ++ (pat ++ R)` when nothing
earlier matches. -/
theorem idxOf_append_of_no_early {pat A R : List Char} (hpat : pat ≠ [])
    (h : ∀ i < A.length, isPref pat ((A ++ (pat ++ R)).drop i) = false) :
    idxOf pat (A ++ (pat ++ R)) = some A.length := by
  have idxOf_cons : ∀ (p : List Char) (c : Char) (t : List Char),
      idxOf p (c :: t) = if isPref p (c :: t) then some 0 else (idxOf p t).map (· + 1) :=
    fun _ _ _ => rfl
  induction A with
  | nil =>
    cases pat with
    | nil => exact absurd rfl hpat
    | cons p0 ps =>
      have hone := isPref_append_self (p0 :: ps) R
      rw [List.cons_append] at hone
      simp only [List.nil_append, List.cons_append, idxOf_cons, hone, if_true]
      rfl
  | cons a A ih =>
    have h0 := h 0 (by simp)
    simp only [List.drop_zero, List.cons_append] at h0
    rw [List.cons_append, idxOf_cons, h0]
    simp only [Bool.false_eq_true, if_false]
    rw [ih (fun i hi => by
      have := h (i + 1) (by simpa using Nat.succ_lt_succ hi)
      simpa using this)]
    simp

theorem idxOf_append_first {pat A R : List Char} (hpat : pat ≠ [])
    (hA : hasOccur pat A = false) (hsf : SelfFree pat) :
    idxOf pat (A ++ (pat ++ R)) = some A.length :=
  idxOf_append_of_no_early hpat (no_early_occurrence hA hsf)

theorem idxOf_eq_none_of_hasOccur {pat l : List Char}
    (h : hasOccur pat l = false) : idxOf pat l = none := by
  induction l with
  | nil =>
    simp only [hasOccur] at h
    simp [idxOf, h]
  | cons c cs ih =>
    simp only [hasOccur, Bool.or_eq_false_iff] at h
    rw [idxOf, h.1]
    simp [ih h.2]

theorem endsWith_append (pat X : List Char) : endsWith pat (X ++ pat) = true := by
  unfold endsWith
  rw [List.reverse_append]
  exact isPref_append_self _ _

/-! ## Data model (src/frontend/src/store/types.ts) -/

/-- Message author, `role: 'user' | 'assistant' | 'system'`. -/
inductive Role where
  | user
  | assistant
  | system
deriving DecidableEq, Repr

/-- One citation, `{ file: string; page?: number; snippet?: string }`. -/
structure Source where
  file : String
  page : Option Nat
  snippet : Option String
deriving DecidableEq, Repr

/-- The `Message` interface.  The optional `sources` array is modelled as a
plain list with `[]` standing for an absent field: every consumer in the
repository (`ChatBubble` checks `sources && sources.length > 0`, the stream
handler overwrites the whole array) treats the two identically. -/
structure Message where
  role : Role
  content : String
  sources : List Source
  persona : Option String
  timestamp : Option String
deriving DecidableEq, Repr

/-! ## JSON payload codec

`JSON.stringify` / `JSON.parse` are host builtins, not part of the repository
sources. -/

/-- Map a digit value to its character. -/
def digitChar (d : Nat) : Char :=
  if d = 0 then '0' else if d = 1 then '1' else if d = 2 then '2'
  else if d = 3 then '3' else if d = 4 then '4' else if d = 5 then '5'
  else if d = 6 then '6' else if d = 7 then '7' else if d = 8 then '8' else '9'

/-- Little-endian decimal digits of `n`; the fuel argument keeps the
recursion structural. -/
def natDigits : Nat → Nat → List Char
  | 0, _ => []
  | fuel + 1, n => if n = 0 then [] else digitChar (n % 10) :: natDigits fuel (n / 10)

/-- Modelled from the spec: `JSON.stringify` of a number (decimal notation). -/
def natToJson (n : Nat) : String :=
  if n = 0 then "0" else ⟨(natDigits n n).reverse⟩

/-- JSON escaping of one character (quote, backslash and common controls). -/
def escChar (c : Char) : List Char :=
  if c = '\\' then ['\\', '\\']
  else if c = '"' then ['\\', '"']
  else if c = '\n' then ['\\', 'n']
  else if c = '\t' then ['\\', 't']
  else if c = '\r' then ['\\', 'r']
  else [c]

/-- Modelled from the spec: the body of a JSON string literal. -/
def escapeJson (s : String) : String := ⟨(s.data.map escChar).flatten⟩

/-- Modelled from the spec: `JSON.stringify` of one source object, fields in
declaration order with absent optionals omitted. -/
def sourceToJson (s : Source) : String :=
  "\x7b\"file\":\"" ++ escapeJson s.file ++ "\"" ++
    (match s.page with
     | some p => ",\"page\":" ++ natToJson p
     | none => "") ++
    (match s.snippet with
     | some t => ",\"snippet\":\"" ++ escapeJson t ++ "\""
     | none => "") ++ "\x7d"

/-- Modelled from the spec: `JSON.stringify` of the source list. -/
def sourcesToJson (l : List Source) : String :=
  "[" ++ strIntercalate "," (l.map sourceToJson) ++ "]"

/-- Reverse of `escChar` for the character after a backslash. -/
def unescChar (c : Char) : Option Char :=
  if c = '\\' then some '\\'
  else if c = '"' then some '"'
  else if c = 'n' then some '\n'
  else if c = 't' then some '\t'
  else if c = 'r' then some '\r'
  else none

/-- Parse the body of a JSON string literal up to and including the closing
quote, returning the decoded characters and the rest of the input. -/
def parseJsonStringAux : List Char → Option (List Char × List Char)
  | [] => none
  | c :: rest =>
    if c = '"' then some ([], rest)
    else if c = '\\' then
      match rest with
      | [] => none
      | e :: rest2 =>
        match unescChar e, parseJsonStringAux rest2 with
        | some d, some (s, r) => some (d :: s, r)
        | _, _ => none
    else
      match parseJsonStringAux rest with
      | none => none
      | some (s, r) => some (c :: s, r)

/-- Consume a run of decimal digits, accumulating their value. -/
def parseNatAux : List Char → Nat → Nat × List Char
  | [], acc => (acc, [])
  | c :: cs, acc =>
    if c.isDigit then parseNatAux cs (acc * 10 + (c.toNat - 48)) else (acc, c :: cs)

/-- Parse a JSON number (nonempty digit run). -/
def parseNum : List Char → Option (Nat × List Char)
  | [] => none
  | c :: cs => if c.isDigit then some (parseNatAux cs (c.toNat - 48)) else none

/-- Expected literal fragments of a serialized source object. -/
def fileKey : List Char := ['\x7b', '"', 'f', 'i', 'l', 'e', '"', ':', '"']

/-- Literal introducing the optional page field. -/
def pageKey : List Char := [',', '"', 'p', 'a', 'g', 'e', '"', ':']

/-- Literal introducing the optional snippet field. -/
def snippetKey : List Char := [',', '"', 's', 'n', 'i', 'p', 'p', 'e', 't', '"', ':', '"']

/-- Require a literal fragment and drop it. -/
def expectLit (pat l : List Char) : Option (List Char) :=
  if isPref pat l then some (l.drop pat.length) else none

/-- Parse the optional page field. -/
def parsePage (l : List Char) : Option (Option Nat × List Char) :=
  if isPref pageKey l then
    match parseNum (l.drop pageKey.length) with
    | some (p, r) => some (some p, r)
    | none => none
  else some (none, l)

/-- Parse the optional snippet field. -/
def parseSnippet (l : List Char) : Option (Option String × List Char) :=
  if isPref snippetKey l then
    match parseJsonStringAux (l.drop snippetKey.length) with
    | some (t, r) => some (some ⟨t⟩, r)
    | none => none
  else some (none, l)

/-- Parse one serialized source object. -/
def parseSource (l : List Char) : Option (Source × List Char) :=
  match expectLit fileKey l with
  | none => none
  | some l1 =>
    match parseJsonStringAux l1 with
    | none => none
    | some (f, l2) =>
      match parsePage l2 with
      | none => none
      | some (p, l3) =>
        match parseSnippet l3 with
        | none => none
        | some (sn, l4) =>
          match l4 with
          | '\x7d' :: r => some (⟨⟨f⟩, p, sn⟩, r)
          | _ => none

/-- Parse the comma-separated objects of a nonempty array, up to and
including the closing bracket.  The fuel bounds the number of elements. -/
def parseSourcesAux : Nat → List Char → Option (List Source × List Char)
  | 0, _ => none
  | fuel + 1, l =>
    match parseSource l with
    | none => none
    | some (s, r) =>
      match r with
      | ',' :: r2 =>
        match parseSourcesAux fuel r2 with
        | none => none
        | some (ss, r3) => some (s :: ss, r3)
      | ']' :: r2 => some ([s], r2)
      | _ => none

/-- Modelled from the spec: `JSON.parse` specialized to source arrays as
produced by the backend; any other input is malformed (`none` models the
exception caught by `parseMessageContent`). -/
def parseSourcesJson (s : String) : Option (List Source) :=
  match s.data with
  | [] => none
  | c :: rest =>
    if c = '[' then
      if rest = [']'] then some []
      else
        match parseSourcesAux (rest.length + 1) rest with
        | some (ss, []) => some ss
        | _ => none
    else none

/-! ## JSON codec round-trip lemmas -/

theorem digitChar_isDigit {d : Nat} (h : d < 10) : (digitChar d).isDigit = true := by
  interval_cases d <;> decide

theorem digitChar_toNat {d : Nat} (h : d < 10) : (digitChar d).toNat - 48 = d := by
  interval_cases d <;> decide

theorem natDigits_all_digits (fuel n : Nat) :
    ∀ c ∈ natDigits fuel n, c.isDigit = true := by
  induction fuel generalizing n with
  | zero => intro c hc; simp [natDigits] at hc
  | succ fuel ih =>
    intro c hc
    by_cases hn : n = 0
    · simp [natDigits, hn] at hc
    · simp only [natDigits, hn, if_false] at hc
      rcases List.mem_cons.mp hc with h | h
      · rw [h]; exact digitChar_isDigit (Nat.mod_lt _ (by omega))
      · exact ih _ _ h

theorem natDigits_val (fuel : Nat) : ∀ n, n ≤ fuel → ∀ acc,
    (natDigits fuel n).reverse.foldl (fun a c => a * 10 + (c.toNat - 48)) acc
      = acc * 10 ^ (natDigits fuel n).length + n := by
  induction fuel with
  | zero =>
    intro n hn acc
    have : n = 0 := Nat.le_zero.mp hn
    simp [natDigits, this]
  | succ fuel ih =>
    intro n hn acc
    by_cases hn0 : n = 0
    · simp [natDigits, hn0]
    · have hdiv : n / 10 ≤ fuel := by
        have : n / 10 < n := Nat.div_lt_self (Nat.pos_of_ne_zero hn0) (by omega)
        omega
      simp only [natDigits, hn0, if_false, List.reverse_cons, List.foldl_append,
        List.foldl_cons, List.foldl_nil, List.length_cons]
      rw [ih _ hdiv acc, digitChar_toNat (Nat.mod_lt _ (by omega))]
      have hmod : n / 10 * 10 + n % 10 = n := by omega
      rw [Nat.pow_succ]
      calc (acc * 10 ^ (natDigits fuel (n / 10)).length + n / 10) * 10 + n % 10
          = acc * (10 ^ (natDigits fuel (n / 10)).length * 10) + (n / 10 * 10 + n % 10) := by
            ring
        _ = acc * (10 ^ (natDigits fuel (n / 10)).length * 10) + n := by rw [hmod]

theorem parseNatAux_append (ds : List Char) : ∀ (r : List Char) (acc : Nat),
    (∀ c ∈ ds, c.isDigit = true) →
    (∀ c cs, r = c :: cs → c.isDigit = false) →
    parseNatAux (ds ++ r) acc = (ds.foldl (fun a c => a * 10 + (c.toNat - 48)) acc, r) := by
  induction ds with
  | nil =>
    intro r acc _ hr
    cases r with
    | nil => rfl
    | cons c cs =>
      simp only [List.nil_append, List.foldl_nil, parseNatAux, hr c cs rfl]
      rfl
  | cons d ds ih =>
    intro r acc hds hr
    have hd : d.isDigit = true := hds d (by simp)
    simp only [List.cons_append, parseNatAux, hd, if_true, List.foldl_cons]
    exact ih r _ (fun c hc => hds c (by simp [hc])) hr

theorem parseNum_append (ds r : List Char) (hne : ds ≠ [])
    (hds : ∀ c ∈ ds, c.isDigit = true)
    (hr : ∀ c cs, r = c :: cs → c.isDigit = false) :
    parseNum (ds ++ r) = some (ds.foldl (fun a c => a * 10 + (c.toNat - 48)) 0, r) := by
  cases ds with
  | nil => exact absurd rfl hne
  | cons d ds =>
    have hd : d.isDigit = true := hds d (by simp)
    simp only [List.cons_append, parseNum, hd, if_true, List.foldl_cons, Nat.zero_mul,
      Nat.zero_add]
    rw [parseNatAux_append ds r _ (fun c hc => hds c (by simp [hc])) hr]

theorem parseNum_natToJson (p : Nat) (r : List Char)
    (hr : ∀ c cs, r = c :: cs → c.isDigit = false) :
    parseNum ((natToJson p).data ++ r) = some (p, r) := by
  by_cases hp : p = 0
  · subst hp
    show parseNum ('0' :: r) = some (0, r)
    simp only [parseNum, show ('0' : Char).isDigit = true from rfl, if_true]
    cases r with
    | nil => rfl
    | cons c cs =>
      simp only [parseNatAux, hr c cs rfl]
      rfl
  · have hdata : (natToJson p).data = (natDigits p p).reverse := by
      simp [natToJson, hp]
    rw [hdata]
    have hne : (natDigits p p).reverse ≠ [] := by
      cases p with
      | zero => exact absurd rfl hp
      | succ k =>
        simp only [natDigits, Nat.succ_ne_zero, if_false, List.reverse_cons, ne_eq]
        intro hcon
        exact absurd (List.append_eq_nil.mp hcon).2 (by simp)
    have hds : ∀ c ∈ (natDigits p p).reverse, c.isDigit = true := by
      intro c hc
      exact natDigits_all_digits p p c (List.mem_reverse.mp hc)
    rw [parseNum_append _ r hne hds hr]
    rw [natDigits_val p p (Nat.le_refl p) 0]
    simp

theorem parseJsonStringAux_cons (c : Char) (rest : List Char) :
    parseJsonStringAux (c :: rest) =
      if c = '"' then some ([], rest)
      else if c = '\\' then
        match rest with
        | [] => none
        | e :: rest2 =>
          match unescChar e, parseJsonStringAux rest2 with
          | some d, some (s, r) => some (d :: s, r)
          | _, _ => none
      else
        match parseJsonStringAux rest with
        | none => none
        | some (s, r) => some (c :: s, r) := by
  conv_lhs => rw [parseJsonStringAux.eq_def]

theorem parseJsonStringAux_roundtrip (cs : List Char) : ∀ r : List Char,
    parseJsonStringAux ((cs.map escChar).flatten ++ ('"' :: r)) = some (cs, r) := by
  induction cs with
  | nil =>
    intro r
    simp [parseJsonStringAux_cons]
  | cons c cs ih =>
    intro r
    simp only [List.map_cons, List.flatten_cons, List.append_assoc]
    by_cases h1 : c = '\\'
    · subst h1
      simp [escChar, parseJsonStringAux_cons, unescChar, ih r]
    · by_cases h2 : c = '"'
      · subst h2
        simp [escChar, parseJsonStringAux_cons, unescChar, ih r]
      · by_cases h3 : c = '\n'
        · subst h3
          simp [escChar, parseJsonStringAux_cons, unescChar, ih r]
        · by_cases h4 : c = '\t'
          · subst h4
            simp [escChar, parseJsonStringAux_cons, unescChar, ih r]
          · by_cases h5 : c = '\r'
            · subst h5
              simp [escChar, parseJsonStringAux_cons, unescChar, ih r]
            · simp [escChar, h1, h2, h3, h4, h5, parseJsonStringAux_cons, ih r]

theorem escapeJson_data (s : String) :
    (escapeJson s).data = (s.data.map escChar).flatten := rfl

theorem fileKey_data : ("\x7b\"file\":\"" : String).data = fileKey := rfl

theorem pageKey_data : (",\"page\":" : String).data = pageKey := rfl

theorem snippetKey_data : (",\"snippet\":\"" : String).data = snippetKey := rfl

theorem quote_data : ("\"" : String).data = ['"'] := rfl

theorem brace_data : ("\x7d" : String).data = ['\x7d'] := rfl

theorem expectLit_append (pat x : List Char) : expectLit pat (pat ++ x) = some x := by
  simp [expectLit, isPref_append_self, List.drop_left]

theorem parsePage_key (p : Nat) (y : List Char)
    (hy : ∀ c cs, y = c :: cs → c.isDigit = false) :
    parsePage (pageKey ++ ((natToJson p).data ++ y)) = some (some p, y) := by
  simp only [parsePage, isPref_append_self, if_true, List.drop_left]
  rw [parseNum_natToJson p y hy]

theorem parsePage_snippetKey (x : List Char) :
    parsePage (snippetKey ++ x) = some (none, snippetKey ++ x) := by
  have h : isPref pageKey (snippetKey ++ x) = false := by simp [pageKey, snippetKey, isPref]
  simp [parsePage, h]

theorem parsePage_brace (x : List Char) :
    parsePage ('\x7d' :: x) = some (none, '\x7d' :: x) := by
  have h : isPref pageKey ('\x7d' :: x) = false := by simp [pageKey, isPref]
  simp [parsePage, h]

theorem parseSnippet_key (t : String) (y : List Char) :
    parseSnippet (snippetKey ++ ((t.data.map escChar).flatten ++ ('"' :: y)))
      = some (some t, y) := by
  simp only [parseSnippet, isPref_append_self, if_true, List.drop_left,
    parseJsonStringAux_roundtrip]

theorem parseSnippet_brace (x : List Char) :
    parseSnippet ('\x7d' :: x) = some (none, '\x7d' :: x) := by
  have h : isPref snippetKey ('\x7d' :: x) = false := by simp [snippetKey, isPref]
  simp [parseSnippet, h]

theorem head_snippetKey_not_digit (x : List Char) :
    ∀ c cs, snippetKey ++ x = c :: cs → c.isDigit = false := by
  intro c cs h
  simp only [snippetKey, List.cons_append, List.cons.injEq] at h
  rw [← h.1]
  decide

theorem head_brace_not_digit (x : List Char) :
    ∀ c cs, '\x7d' :: x = c :: cs → c.isDigit = false := by
  intro c cs h
  injection h with h1 h2
  rw [← h1]
  decide

theorem parseSource_roundtrip (s : Source) (r : List Char) :
    parseSource ((sourceToJson s).data ++ r) = some (s, r) := by
  obtain ⟨f, p, sn⟩ := s
  cases p with
  | none =>
    cases sn with
    | none =>
      have hshape : (sourceToJson ⟨f, none, none⟩).data ++ r
          = fileKey ++ ((f.data.map escChar).flatten ++ ('"' :: ('\x7d' :: r))) := by
        simp [sourceToJson, strData_append, escapeJson_data, fileKey_data, quote_data,
          brace_data, fileKey, List.append_assoc]
      rw [hshape]
      simp [parseSource, expectLit_append, parseJsonStringAux_roundtrip, parsePage_brace,
        parseSnippet_brace]
    | some t =>
      have hshape : (sourceToJson ⟨f, none, some t⟩).data ++ r
          = fileKey ++ ((f.data.map escChar).flatten ++ ('"' ::
              (snippetKey ++ ((t.data.map escChar).flatten ++ ('"' :: ('\x7d' :: r)))))) := by
        simp [sourceToJson, strData_append, escapeJson_data, fileKey_data, quote_data,
          brace_data, snippetKey_data, fileKey, snippetKey, List.append_assoc]
      rw [hshape]
      simp [parseSource, expectLit_append, parseJsonStringAux_roundtrip, parsePage_snippetKey,
        parseSnippet_key]
  | some pn =>
    cases sn with
    | none =>
      have hshape : (sourceToJson ⟨f, some pn, none⟩).data ++ r
          = fileKey ++ ((f.data.map escChar).flatten ++ ('"' ::
              (pageKey ++ ((natToJson pn).data ++ ('\x7d' :: r))))) := by
        simp [sourceToJson, strData_append, escapeJson_data, fileKey_data, quote_data,
          brace_data, pageKey_data, fileKey, pageKey, List.append_assoc]
      rw [hshape]
      simp [parseSource, expectLit_append, parseJsonStringAux_roundtrip,
        parsePage_key pn _ (head_brace_not_digit r), parseSnippet_brace]
    | some t =>
      have hshape : (sourceToJson ⟨f, some pn, some t⟩).data ++ r
          = fileKey ++ ((f.data.map escChar).flatten ++ ('"' ::
              (pageKey ++ ((natToJson pn).data ++
                (snippetKey ++ ((t.data.map escChar).flatten ++ ('"' :: ('\x7d' :: r)))))))) := by
        simp [sourceToJson, strData_append, escapeJson_data, fileKey_data, quote_data,
          brace_data, pageKey_data, snippetKey_data, fileKey, pageKey, snippetKey,
          List.append_assoc]
      rw [hshape]
      simp [parseSource, expectLit_append, parseJsonStringAux_roundtrip,
        parsePage_key pn _ (head_snippetKey_not_digit _), parseSnippet_key]

theorem parseSourcesAux_succ (fuel : Nat) (l : List Char) :
    parseSourcesAux (fuel + 1) l =
      match parseSource l with
      | none => none
      | some (s, r) =>
        match r with
        | ',' :: r2 =>
          match parseSourcesAux fuel r2 with
          | none => none
          | some (ss, r3) => some (s :: ss, r3)
        | ']' :: r2 => some ([s], r2)
        | _ => none := rfl

theorem comma_data : ("," : String).data = [','] := rfl

theorem parseSourcesAux_roundtrip (ss : List Source) : ss ≠ [] →
    ∀ fuel, ss.length ≤ fuel →
    parseSourcesAux fuel ((strIntercalate "," (ss.map sourceToJson)).data ++ [']'])
      = some (ss, []) := by
  induction ss with
  | nil => intro h; exact absurd rfl h
  | cons s ss ih =>
    intro _ fuel hf
    cases fuel with
    | zero => simp at hf
    | succ g =>
      cases ss with
      | nil =>
        simp only [List.map_cons, List.map_nil, strIntercalate]
        rw [parseSourcesAux_succ, parseSource_roundtrip s [']']]
        rfl
      | cons s2 ss2 =>
        have hshape : (strIntercalate "," ((s :: s2 :: ss2).map sourceToJson)).data ++ [']']
            = (sourceToJson s).data ++
                (',' :: ((strIntercalate "," ((s2 :: ss2).map sourceToJson)).data ++ [']'])) := by
          simp [strIntercalate, strData_append, comma_data, List.append_assoc]
        rw [hshape, parseSourcesAux_succ, parseSource_roundtrip s _]
        have hg : (s2 :: ss2).length ≤ g := by
          simp only [List.length_cons] at hf ⊢
          omega
        have hih := ih (by simp) g hg
        simp only [List.map_cons] at hih
        simp [hih]

theorem tailEnc_length (ss : List Source) : ss ≠ [] →
    ss.length ≤ ((strIntercalate "," (ss.map sourceToJson)).data ++ [']']).length := by
  induction ss with
  | nil => intro h; exact absurd rfl h
  | cons s ss ih =>
    intro _
    cases ss with
    | nil => simp
    | cons s2 ss2 =>
      have hshape : (strIntercalate "," ((s :: s2 :: ss2).map sourceToJson)).data ++ [']']
          = (sourceToJson s).data ++
              (',' :: ((strIntercalate "," ((s2 :: ss2).map sourceToJson)).data ++ [']'])) := by
        simp [strIntercalate, strData_append, comma_data, List.append_assoc]
      rw [hshape]
      have := ih (by simp)
      simp only [List.length_cons, List.length_append] at this ⊢
      omega

theorem sourceToJson_head (s : Source) : ∃ t, (sourceToJson s).data = '\x7b' :: t := by
  obtain ⟨f, p, sn⟩ := s
  cases p with
  | none =>
    cases sn with
    | none =>
      simp only [sourceToJson, strData_append, escapeJson_data, fileKey_data, quote_data,
        brace_data, fileKey, List.cons_append, List.nil_append, List.append_assoc]
      exact ⟨_, rfl⟩
    | some t =>
      simp only [sourceToJson, strData_append, escapeJson_data, fileKey_data, quote_data,
        brace_data, snippetKey_data, fileKey, snippetKey, List.cons_append, List.nil_append,
        List.append_assoc]
      exact ⟨_, rfl⟩
  | some pn =>
    cases sn with
    | none =>
      simp only [sourceToJson, strData_append, escapeJson_data, fileKey_data, quote_data,
        brace_data, pageKey_data, fileKey, pageKey, List.cons_append, List.nil_append,
        List.append_assoc]
      exact ⟨_, rfl⟩
    | some t =>
      simp only [sourceToJson, strData_append, escapeJson_data, fileKey_data, quote_data,
        brace_data, pageKey_data, snippetKey_data, fileKey, pageKey, snippetKey,
        List.cons_append, List.nil_append, List.append_assoc]
      exact ⟨_, rfl⟩

theorem parseSourcesJson_roundtrip (ss : List Source) (hne : ss ≠ []) :
    parseSourcesJson (sourcesToJson ss) = some ss := by
  cases ss with
  | nil => exact absurd rfl hne
  | cons s0 rest =>
    obtain ⟨t0, ht0⟩ := sourceToJson_head s0
    have hdata : (sourcesToJson (s0 :: rest)).data
        = '[' :: ((strIntercalate "," ((s0 :: rest).map sourceToJson)).data ++ [']']) := by
      simp [sourcesToJson, strData_append, List.append_assoc,
        show ("[" : String).data = ['['] from rfl, show ("]" : String).data = [']'] from rfl]
    have hhead : ∃ t1, (strIntercalate "," ((s0 :: rest).map sourceToJson)).data ++ [']']
        = '\x7b' :: t1 := by
      cases rest with
      | nil =>
        refine ⟨t0 ++ [']'], ?_⟩
        simp [strIntercalate, ht0]
      | cons s1 rest1 =>
        refine ⟨t0 ++ (("," ++ strIntercalate "," ((s1 :: rest1).map sourceToJson)).data ++ [']']), ?_⟩
        simp [strIntercalate, strData_append, List.append_assoc, ht0]
    obtain ⟨t1, ht1⟩ := hhead
    have hlen := tailEnc_length (s0 :: rest) (by simp)
    have hne2 : ('\x7b' :: t1) ≠ [']'] := by simp
    simp only [parseSourcesJson, hdata, ht1, if_pos rfl, if_neg hne2]
    rw [← ht1]
    rw [parseSourcesAux_roundtrip (s0 :: rest) (by simp) _ (by omega)]
    simp

/-! ## Persistence codec (useAppStore.ts, parseMessageContent) -/

/-- Opening marker of the embedded source block. -/
def sourcesOpen : List Char := "<sources>".data

/-- Closing marker of the embedded source block. -/
def sourcesClose : List Char := "</sources>".data

/-- The anchored pattern match `content.match(/<sources>(.*?)<\/sources>$/s)`:
the regex matches exactly when the string ends with the closing marker and the
opening marker occurs early enough; the leftmost match starts at the first
occurrence of the opening marker and the lazy capture is forced to run up to
the final closing marker.  Returns (text before the match, captured payload). -/
def matchSources (content : String) : Option (String × String) :=
  if endsWith sourcesClose content.data then
    match idxOf sourcesOpen (content.data.take (content.data.length - 10)) with
    | some i =>
      some (⟨(content.data.take (content.data.length - 10)).take i⟩,
        ⟨(content.data.take (content.data.length - 10)).drop (i + 9)⟩)
    | none => none
  else none

/-- `parseMessageContent` from `useAppStore.ts`: strip a trailing
`<sources>…</sources>` block, JSON-parse its payload into the `sources`
field and trim the remaining content; on any failure (no match, empty
capture, malformed JSON) return the message unchanged. -/
def parseMessageContent (msg : Message) : Message :=
  if msg.content = "" then msg
  else
    match matchSources msg.content with
    | some (pre, payload) =>
      if payload = "" then msg
      else
        match parseSourcesJson payload with
        | some srcs => { msg with content := strTrim pre, sources := srcs }
        | none => msg
    | none => msg

/-- Modelled from the spec: the storage write path (backend side, not under
src/) appends `<sources>` ++ JSON-serialized source list ++ `</sources>` to
the raw content exactly when the source list is non-empty. -/
def encodeMessage (m : Message) : String :=
  match m.sources with
  | [] => m.content
  | s :: rest => m.content ++ "<sources>" ++ sourcesToJson (s :: rest) ++ "</sources>"

/-- The record as it comes back from storage: only role, encoded content and
metadata survive; the structured source list does not. -/
def storedMessage (m : Message) : Message :=
  { role := m.role, content := encodeMessage m, sources := [], persona := m.persona,
    timestamp := m.timestamp }

/-- decode ∘ encode through the persistence layer. -/
def roundTrip (m : Message) : Message := parseMessageContent (storedMessage m)

theorem selfFree_sourcesOpen : SelfFree sourcesOpen := by
  unfold SelfFree
  decide

theorem sourcesToJson_data_cons (s0 : Source) (rest : List Source) :
    (sourcesToJson (s0 :: rest)).data
      = '[' :: ((strIntercalate "," ((s0 :: rest).map sourceToJson)).data ++ [']']) := by
  simp [sourcesToJson, strData_append, List.append_assoc,
    show ("[" : String).data = ['['] from rfl, show ("]" : String).data = [']'] from rfl]

theorem matchSources_encode (content payload : String)
    (h : hasOccur sourcesOpen content.data = false) :
    matchSources (content ++ "<sources>" ++ payload ++ "</sources>")
      = some (content, payload) := by
  have hdata : (content ++ "<sources>" ++ payload ++ "</sources>").data
      = (content.data ++ (sourcesOpen ++ payload.data)) ++ sourcesClose := by
    simp [strData_append, sourcesOpen, sourcesClose, List.append_assoc]
  unfold matchSources
  rw [hdata, endsWith_append]
  simp only [if_true]
  have hlen : ((content.data ++ (sourcesOpen ++ payload.data)) ++ sourcesClose).length - 10
      = (content.data ++ (sourcesOpen ++ payload.data)).length := by
    simp only [List.length_append]
    have h9 : sourcesOpen.length = 9 := by decide
    have h10 : sourcesClose.length = 10 := by decide
    omega
  rw [hlen, List.take_left]
  rw [idxOf_append_first (by decide) h selfFree_sourcesOpen]
  have htake : (content.data ++ (sourcesOpen ++ payload.data)).take content.data.length
      = content.data := List.take_left content.data _
  have hdrop : (content.data ++ (sourcesOpen ++ payload.data)).drop (content.data.length + 9)
      = payload.data := by
    have hassoc : content.data ++ (sourcesOpen ++ payload.data)
        = (content.data ++ sourcesOpen) ++ payload.data := by
      simp [List.append_assoc]
    rw [hassoc]
    apply List.drop_left'
    have h9 : sourcesOpen.length = 9 := by decide
    simp [h9]
  simp only [htake, hdrop]

theorem matchSources_none (content : String)
    (h : hasOccur sourcesOpen content.data = false) :
    matchSources content = none := by
  unfold matchSources
  cases he : endsWith sourcesClose content.data with
  | false => simp [he]
  | true =>
    simp only [he, if_true]
    rw [idxOf_eq_none_of_hasOccur (hasOccur_take _ h)]

/-- decode ∘ encode is the identity on messages whose content holds no
occurrence of the opening marker and is already trimmed. -/
theorem roundTrip_eq (m : Message) (h1 : hasOccur sourcesOpen m.content.data = false)
    (h2 : strTrim m.content = m.content) : roundTrip m = m := by
  obtain ⟨r, c, src, p, ts⟩ := m
  cases src with
  | nil =>
    simp only [roundTrip, storedMessage, encodeMessage, parseMessageContent]
    by_cases hc : c = ""
    · simp [hc]
    · simp only [hc, if_false]
      rw [matchSources_none c h1]
  | cons s rest =>
    have hne : encodeMessage ⟨r, c, s :: rest, p, ts⟩ ≠ "" := by
      intro hcon
      have hd := congrArg String.data hcon
      simp only [encodeMessage] at hd
      rw [show (c ++ "<sources>" ++ sourcesToJson (s :: rest) ++ "</sources>").data
          = (c.data ++ (sourcesOpen ++ (sourcesToJson (s :: rest)).data)) ++ sourcesClose by
        simp [strData_append, sourcesOpen, sourcesClose, List.append_assoc]] at hd
      have := congrArg List.length hd
      simp only [List.length_append] at this
      have h10 : sourcesClose.length = 10 := by decide
      simp [h10] at this
    simp only [roundTrip, storedMessage, parseMessageContent, hne, if_false]
    have henc : encodeMessage ⟨r, c, s :: rest, p, ts⟩
        = c ++ "<sources>" ++ sourcesToJson (s :: rest) ++ "</sources>" := rfl
    rw [henc, matchSources_encode c (sourcesToJson (s :: rest)) h1]
    have hpl : sourcesToJson (s :: rest) ≠ "" := by
      intro hcon
      have hd := congrArg String.data hcon
      rw [sourcesToJson_data_cons] at hd
      simp at hd
    simp only [hpl, if_false]
    rw [parseSourcesJson_roundtrip (s :: rest) (by simp)]
    simp only [h2]

/-! ## ChatBubble reasoning parser (components, ChatBubble.tsx) -/

/-- Reasoning-open marker `<think>` (7 characters). -/
def thinkOpen : List Char := "<think>".data

/-- Reasoning-close marker `</think>` (8 characters). -/
def thinkClose : List Char := "</think>".data

/-- JS `String.prototype.substring(a, b)`: clamps both indices to the string
length and swaps them when `a > b`. -/
def jsSubstring (s : String) (a b : Nat) : String :=
  ⟨(s.data.take (max (min a s.data.length) (min b s.data.length))).drop
    (min (min a s.data.length) (min b s.data.length))⟩

/-- JS `String.prototype.substring(a)`. -/
def jsSubstringFrom (s : String) (a : Nat) : String := ⟨s.data.drop a⟩

/-- The derived rendering state computed by `ChatBubble` from a message. -/
structure BubbleView where
  isThinkingActive : Bool
  thoughtContent : String
  mainContent : String
  activeSnippet : String
deriving DecidableEq, Repr

/-- The parsing logic of `ChatBubble` (lines 27-56): locate the first
`<think>` and the first `</think>`, and derive the thought block, the visible
main content and the live snippet. -/
def chatBubbleParse (message : Message) (isLast isLoading : Bool) : BubbleView :=
  let rawContent := message.content
  match idxOf thinkOpen rawContent.data with
  | none =>
    { isThinkingActive := false, thoughtContent := "", mainContent := rawContent,
      activeSnippet := "Thinking..." }
  | some s =>
    match idxOf thinkClose rawContent.data with
    | some e =>
      { isThinkingActive := false,
        thoughtContent := strTrim (jsSubstring rawContent (s + 7) e),
        mainContent := strTrim (jsSubstringFrom rawContent (e + 8)),
        activeSnippet := "Thinking..." }
    | none =>
      let thought := strTrim (jsSubstringFrom rawContent (s + 7))
      let lines := (splitLines thought.data).filter (fun line => (trimChars line).length > 0)
      { isThinkingActive := isLast && isLoading, thoughtContent := thought, mainContent := "",
        activeSnippet :=
          match lines.getLast? with
          | some l => ⟨l⟩
          | none => "Thinking..." }

theorem selfFree_thinkOpen : SelfFree thinkOpen := by
  unfold SelfFree
  decide

theorem selfFree_thinkClose : SelfFree thinkClose := by
  unfold SelfFree
  decide

/-- On a fully closed reasoning block the view drops the text before the open
marker, trims the span between the markers into the thought block and trims
the text after the close marker into the visible answer. -/
theorem chatBubbleParse_closed (A B C : String) (role : Role) (src : List Source)
    (persona timestamp : Option String) (isLast isLoading : Bool)
    (hA : hasOccur thinkOpen A.data = false)
    (hAB : hasOccur thinkClose (A.data ++ (thinkOpen ++ B.data)) = false) :
    chatBubbleParse
        ⟨role, ⟨A.data ++ (thinkOpen ++ (B.data ++ (thinkClose ++ C.data)))⟩, src, persona,
          timestamp⟩ isLast isLoading
      = { isThinkingActive := false, thoughtContent := strTrim B, mainContent := strTrim C,
          activeSnippet := "Thinking..." } := by
  set raw : List Char := A.data ++ (thinkOpen ++ (B.data ++ (thinkClose ++ C.data))) with hraw
  have h7 : thinkOpen.length = 7 := by decide
  have h8 : thinkClose.length = 8 := by decide
  have hopen : idxOf thinkOpen raw = some A.data.length := by
    rw [hraw]
    exact idxOf_append_first (by decide) hA selfFree_thinkOpen
  have hclose : idxOf thinkClose raw = some (A.data.length + 7 + B.data.length) := by
    have hassoc : raw = (A.data ++ (thinkOpen ++ B.data)) ++ (thinkClose ++ C.data) := by
      rw [hraw]; simp [List.append_assoc]
    rw [hassoc, idxOf_append_first (by decide) hAB selfFree_thinkClose]
    simp [h7]
    omega
  have hlen : raw.length = A.data.length + 7 + B.data.length + 8 + C.data.length := by
    rw [hraw]
    simp [List.length_append, h7, h8]
    omega
  have hthought : (raw.take (A.data.length + 7 + B.data.length)).drop (A.data.length + 7)
      = B.data := by
    have htk : raw.take (A.data.length + 7 + B.data.length) = (A.data ++ thinkOpen) ++ B.data := by
      have : raw = ((A.data ++ thinkOpen) ++ B.data) ++ (thinkClose ++ C.data) := by
        rw [hraw]; simp [List.append_assoc]
      rw [this]
      apply List.take_left'
      simp [h7]
      omega
    rw [htk]
    apply List.drop_left'
    simp [h7]
  have hmain : raw.drop (A.data.length + 7 + B.data.length + 8) = C.data := by
    have : raw = (((A.data ++ thinkOpen) ++ B.data) ++ thinkClose) ++ C.data := by
      rw [hraw]; simp [List.append_assoc]
    rw [this]
    apply List.drop_left'
    simp [h7, h8]
    omega
  simp only [chatBubbleParse, hopen, hclose]
  have hsub1 : jsSubstring ⟨raw⟩ (A.data.length + 7) (A.data.length + 7 + B.data.length)
      = ⟨B.data⟩ := by
    unfold jsSubstring
    have hle1 : A.data.length + 7 ≤ raw.length := by omega
    have hle2 : A.data.length + 7 + B.data.length ≤ raw.length := by omega
    have hm1 : min (A.data.length + 7) raw.length = A.data.length + 7 := Nat.min_eq_left hle1
    have hm2 : min (A.data.length + 7 + B.data.length) raw.length
        = A.data.length + 7 + B.data.length := Nat.min_eq_left hle2
    show (⟨(raw.take (max (min (A.data.length + 7) raw.length)
        (min (A.data.length + 7 + B.data.length) raw.length))).drop
        (min (min (A.data.length + 7) raw.length)
        (min (A.data.length + 7 + B.data.length) raw.length))⟩ : String) = ⟨B.data⟩
    rw [hm1, hm2, Nat.max_eq_right (by omega), Nat.min_eq_left (by omega), hthought]
  have hsub2 : jsSubstringFrom ⟨raw⟩ (A.data.length + 7 + B.data.length + 8) = ⟨C.data⟩ := by
    unfold jsSubstringFrom
    rw [hmain]
  rw [hsub1, hsub2]

/-- When the open marker is present and no close marker has arrived, the view
hides the main content, exposes the trimmed tail after the open marker as the
thought block, and is live only while the message is last and loading. -/
theorem chatBubbleParse_active (msg : Message) (s : Nat) (isLast isLoading : Bool)
    (hopen : idxOf thinkOpen msg.content.data = some s)
    (hclose : idxOf thinkClose msg.content.data = none) :
    (chatBubbleParse msg isLast isLoading).mainContent = "" ∧
    (chatBubbleParse msg isLast isLoading).thoughtContent
      = strTrim ⟨msg.content.data.drop (s + 7)⟩ ∧
    (chatBubbleParse msg isLast isLoading).isThinkingActive = (isLast && isLoading) := by
  simp [chatBubbleParse, hopen, hclose, jsSubstringFrom]

/-! ## Chat slice state and stream handlers (useAppStore.ts) -/

/-- The chat-slice state touched by streaming: the message list, the loading
flag and the stored WebSocket reference (handles are numbered). -/
structure ChatState where
  chatHistory : List Message
  isLoading : Bool
  activeWebSocket : Option Nat
deriving DecidableEq, Repr

/-- Rebuild the history replacing its last element by `f m` exactly when that
last element is assistant-authored — the guarded update both stream handlers
perform (`newHistory[lastIdx] = ...` behind `length > 0` and
`role === 'assistant'` checks). -/
def applyLastAssistant (f : Message → Message) : List Message → List Message
  | [] => []
  | [m] => if m.role = Role.assistant then [f m] else [m]
  | m :: rest => m :: applyLastAssistant f rest

/-- `token` handler: extend the closure accumulator `fullResponse` and write
it into the last assistant message.  Returns the new accumulator and state. -/
def onToken (d : String) (full : String) (st : ChatState) : String × ChatState :=
  (full ++ d,
    { st with chatHistory :=
        applyLastAssistant (fun m => { m with content := full ++ d }) st.chatHistory })

/-- `sources` handler: overwrite the source list of the last assistant
message with the event payload. -/
def onSources (d : List Source) (st : ChatState) : ChatState :=
  { st with chatHistory :=
      applyLastAssistant (fun m => { m with sources := d }) st.chatHistory }

/-- State part of the `done` handler (the transport part closes the socket). -/
def onDone (st : ChatState) : ChatState :=
  { st with isLoading := false, activeWebSocket := none }

/-- `ws.onerror` handler. -/
def onWsError (st : ChatState) : ChatState :=
  { st with isLoading := false, activeWebSocket := none }

/-- `stopGeneration`: close any stored socket (transport side) and clear the
loading flag and the reference. -/
def stopGeneration (st : ChatState) : ChatState :=
  { st with isLoading := false, activeWebSocket := none }

/-- A stream event as demultiplexed by `ws.onmessage` (`data.type`). -/
inductive StreamEvent where
  | token (data : String)
  | sources (data : List Source)
  | done
deriving DecidableEq, Repr

/-- The per-turn handler closure: the captured socket and the mutable
`fullResponse` accumulator. -/
structure TurnClosure where
  wsId : Nat
  fullResponse : String
deriving DecidableEq, Repr

/-- The store state together with the transport: which socket handles are
currently live, and a counter for fresh handles. -/
structure World where
  st : ChatState
  openSockets : List Nat
  nextId : Nat
deriving DecidableEq, Repr

/-- `stopGeneration` seen from the transport: `ws.close()` on the stored
handle, then the state update. -/
def stopGenerationW (w : World) : World :=
  match w.st.activeWebSocket with
  | some i =>
    { st := stopGeneration w.st, openSockets := w.openSockets.filter (· != i),
      nextId := w.nextId }
  | none => { w with st := stopGeneration w.st }

/-- The synchronous prefix of `sendMessage`: stop any existing generation,
set the loading flag, append the user message and the empty assistant
message, open a fresh WebSocket and store it.  Returns the new world and the
turn's handler closure (socket plus empty `fullResponse`). -/
def startTurn (w : World) (content : String) (persona : String) : World × TurnClosure :=
  let w1 := stopGenerationW w
  let userMsg : Message := ⟨Role.user, content, [], some "User", none⟩
  let botMsg : Message := ⟨Role.assistant, "", [], some persona, none⟩
  let i := w1.nextId
  ({ st := ⟨w1.st.chatHistory ++ [userMsg, botMsg], true, some i⟩,
     openSockets := w1.openSockets ++ [i], nextId := i + 1 },
   ⟨i, ""⟩)

/-- Modelled from the spec: event delivery through the transport.  A closed
Transport handle delivers nothing (a compliant WebSocket fires no `message`
events once `close()` has been called, and the spec requires that no event
from a closed handle be applied), so the handler body runs only when the
closure's socket is still open. -/
def deliverEvent (w : World) (c : TurnClosure) (ev : StreamEvent) : World × TurnClosure :=
  if c.wsId ∈ w.openSockets then
    match ev with
    | .token d =>
      let r := onToken d c.fullResponse w.st
      ({ w with st := r.2 }, { c with fullResponse := r.1 })
    | .sources d => ({ w with st := onSources d w.st }, c)
    | .done =>
      ({ st := onDone w.st, openSockets := w.openSockets.filter (· != c.wsId),
         nextId := w.nextId }, c)
  else (w, c)

/-- Deliver a sequence of events for one closure in order. -/
def deliverAll (w : World) (c : TurnClosure) : List StreamEvent → World × TurnClosure
  | [] => (w, c)
  | ev :: evs =>
    let r := deliverEvent w c ev
    deliverAll r.1 r.2 evs

/-- One step of the chat slice: a user submits a turn, presses stop, or one
stream event is delivered to some turn closure. -/
inductive WStep : World → World → Prop where
  | start (w : World) (content persona : String) : WStep w (startTurn w content persona).1
  | stop (w : World) : WStep w (stopGenerationW w)
  | deliver (w : World) (c : TurnClosure) (ev : StreamEvent) :
      WStep w (deliverEvent w c ev).1

/-- The store before any turn. -/
def initWorld : World := ⟨⟨[], false, none⟩, [], 0⟩

/-- Worlds reachable from the initial store state. -/
def Reach (w : World) : Prop := Relation.ReflTransGen WStep initWorld w

/-- Transport invariant: all open handles (at most one) are exactly the
stored `activeWebSocket` reference. -/
def SocketInv (w : World) : Prop :=
  w.openSockets = [] ∨ ∃ i, w.openSockets = [i] ∧ w.st.activeWebSocket = some i

/-! ## Store lemmas -/

theorem str_append_nil (s : String) : s ++ "" = s := by
  cases s with
  | mk l =>
    show String.mk (l ++ []) = String.mk l
    rw [List.append_nil]

theorem str_append_assoc (s t u : String) : s ++ t ++ u = s ++ (t ++ u) := by
  cases s; cases t; cases u
  show String.mk _ = String.mk _
  rw [List.append_assoc]

theorem applyLastAssistant_singleton (f : Message → Message) (m : Message) :
    applyLastAssistant f [m] = if m.role = Role.assistant then [f m] else [m] := rfl

theorem applyLastAssistant_cons₂ (f : Message → Message) (m y : Message)
    (rest : List Message) :
    applyLastAssistant f (m :: y :: rest) = m :: applyLastAssistant f (y :: rest) := rfl

theorem applyLastAssistant_append (f : Message → Message) (H : List Message) (m : Message) :
    applyLastAssistant f (H ++ [m])
      = H ++ [if m.role = Role.assistant then f m else m] := by
  induction H with
  | nil =>
    show applyLastAssistant f [m] = [if m.role = Role.assistant then f m else m]
    by_cases h : m.role = Role.assistant <;> simp [applyLastAssistant_singleton, h]
  | cons h H ih =>
    cases H with
    | nil =>
      show applyLastAssistant f (h :: m :: [])
          = h :: [if m.role = Role.assistant then f m else m]
      rw [applyLastAssistant_cons₂]
      by_cases hr : m.role = Role.assistant <;> simp [applyLastAssistant_singleton, hr]
    | cons h2 H2 =>
      simp only [List.cons_append] at ih ⊢
      rw [applyLastAssistant_cons₂, ih]

theorem applyLastAssistant_not_assistant (f : Message → Message) :
    ∀ (h : List Message) (m : Message), h.getLast? = some m →
      m.role ≠ Role.assistant → applyLastAssistant f h = h := by
  intro h
  induction h with
  | nil => intro m hm _; simp at hm
  | cons x rest ih =>
    intro m hm hrole
    cases rest with
    | nil =>
      simp only [List.getLast?_singleton, Option.some.injEq] at hm
      show applyLastAssistant f [x] = [x]
      simp [applyLastAssistant, hm ▸ hrole]
    | cons y rest2 =>
      rw [List.getLast?_cons_cons] at hm
      show x :: applyLastAssistant f (y :: rest2) = x :: (y :: rest2)
      rw [ih m hm hrole]

/-- Run the `token` handler over a list of payloads in order, threading the
closure accumulator. -/
def runTokens : List String → String → ChatState → String × ChatState
  | [], full, st => (full, st)
  | d :: ds, full, st =>
    let r := onToken d full st
    runTokens ds r.1 r.2

theorem runTokens_spec (ts : List String) :
    ∀ (full : String) (m : Message) (H : List Message) (b : Bool) (a : Option Nat),
      m.role = Role.assistant → m.content = full →
      runTokens ts full ⟨H ++ [m], b, a⟩
        = (full ++ strJoin ts,
           ⟨H ++ [{ m with content := full ++ strJoin ts }], b, a⟩) := by
  induction ts with
  | nil =>
    intro full m H b a hrole hfull
    show (full, (⟨H ++ [m], b, a⟩ : ChatState)) = _
    rw [show strJoin [] = "" from rfl, str_append_nil]
    rw [← hfull]
  | cons d ds ih =>
    intro full m H b a hrole hfull
    show runTokens ds (full ++ d)
        ⟨applyLastAssistant (fun x => { x with content := full ++ d }) (H ++ [m]), b, a⟩ = _
    rw [applyLastAssistant_append, if_pos hrole]
    rw [ih (full ++ d) ({ m with content := full ++ d }) H b a hrole rfl]
    rw [show strJoin (d :: ds) = d ++ strJoin ds from rfl, ← str_append_assoc]

theorem deliverEvent_closed (w : World) (c : TurnClosure) (ev : StreamEvent)
    (h : c.wsId ∉ w.openSockets) : deliverEvent w c ev = (w, c) := by
  simp [deliverEvent, h]

theorem deliverAll_closed (evs : List StreamEvent) (w : World) (c : TurnClosure)
    (h : c.wsId ∉ w.openSockets) : deliverAll w c evs = (w, c) := by
  induction evs with
  | nil => rfl
  | cons ev evs ih =>
    show deliverAll (deliverEvent w c ev).1 (deliverEvent w c ev).2 evs = (w, c)
    rw [deliverEvent_closed w c ev h]
    exact ih

theorem stopGenerationW_closes (w : World) (i : Nat)
    (h : w.st.activeWebSocket = some i) :
    i ∉ (stopGenerationW w).openSockets := by
  simp [stopGenerationW, h, List.mem_filter]

theorem stopGenerationW_history (w : World) :
    (stopGenerationW w).st.chatHistory = w.st.chatHistory := by
  unfold stopGenerationW
  cases w.st.activeWebSocket <;> rfl

theorem stopGenerationW_state (w : World) :
    (stopGenerationW w).st.isLoading = false ∧
    (stopGenerationW w).st.activeWebSocket = none := by
  unfold stopGenerationW
  cases w.st.activeWebSocket <;> exact ⟨rfl, rfl⟩

theorem stopGenerationW_idem (w : World) :
    stopGenerationW (stopGenerationW w) = stopGenerationW w := by
  unfold stopGenerationW
  cases h : w.st.activeWebSocket <;> simp [stopGeneration]

/-- Combined reachability invariant: at most one open handle, it is the
stored one, and every handle ever seen is below the freshness counter. -/
def WorldInv (w : World) : Prop :=
  SocketInv w ∧ (∀ j ∈ w.openSockets, j < w.nextId) ∧
    (∀ i, w.st.activeWebSocket = some i → i < w.nextId)

theorem stopGenerationW_open_nil (w : World) (h : SocketInv w) :
    (stopGenerationW w).openSockets = [] := by
  unfold stopGenerationW
  rcases h with h | ⟨i, hopen, hact⟩
  · cases ha : w.st.activeWebSocket <;> simp [h]
  · rw [hact, hopen]
    simp

theorem stopGenerationW_nextId (w : World) :
    (stopGenerationW w).nextId = w.nextId := by
  unfold stopGenerationW
  cases w.st.activeWebSocket <;> rfl

theorem worldInv_step {w w' : World} (hstep : WStep w w') (hinv : WorldInv w) :
    WorldInv w' := by
  obtain ⟨hsock, hfresh, hact⟩ := hinv
  cases hstep with
  | start content persona =>
    have hnil := stopGenerationW_open_nil w hsock
    have hnext := stopGenerationW_nextId w
    constructor
    · right
      refine ⟨(stopGenerationW w).nextId, ?_, rfl⟩
      show (stopGenerationW w).openSockets ++ [(stopGenerationW w).nextId] = _
      rw [hnil]
      rfl
    constructor
    · intro j hj
      show j < (stopGenerationW w).nextId + 1
      simp only [startTurn] at hj
      rw [hnil] at hj
      simp at hj
      omega
    · intro i hi
      show i < (stopGenerationW w).nextId + 1
      simp only [startTurn] at hi
      cases hi
      omega
  | stop =>
    refine ⟨Or.inl (stopGenerationW_open_nil w hsock), ?_, ?_⟩
    · intro j hj
      rw [stopGenerationW_open_nil w hsock] at hj
      simp at hj
    · intro i hi
      rw [(stopGenerationW_state w).2] at hi
      cases hi
  | deliver c ev =>
    by_cases hmem : c.wsId ∈ w.openSockets
    · rcases hsock with hnil | ⟨i, hopen, hactive⟩
      · rw [hnil] at hmem; simp at hmem
      · have hci : c.wsId = i := by
          rw [hopen] at hmem
          simpa using hmem
        cases ev with
        | token d =>
          simp only [deliverEvent, hmem, if_pos]
          exact ⟨Or.inr ⟨i, hopen, hactive⟩, hfresh, hact⟩
        | sources d =>
          simp only [deliverEvent, hmem, if_pos]
          exact ⟨Or.inr ⟨i, hopen, hactive⟩, hfresh, hact⟩
        | done =>
          simp only [deliverEvent, hmem, if_pos]
          refine ⟨Or.inl ?_, ?_, ?_⟩
          · rw [hopen, hci]
            simp
          · intro j hj
            simp only [List.mem_filter] at hj
            exact hfresh j hj.1
          · intro i2 hi2
            cases hi2
    · rw [(deliverEvent_closed w c ev hmem)]
      exact ⟨hsock, hfresh, hact⟩

theorem reach_worldInv (w : World) (h : Reach w) : WorldInv w := by
  induction h with
  | refl =>
    refine ⟨Or.inl rfl, ?_, ?_⟩
    · intro j hj; simp [initWorld] at hj
    · intro i hi; simp [initWorld] at hi
  | tail hsteps hstep ih => exact worldInv_step hstep ih

theorem str_nil_append (s : String) : "" ++ s = s := by
  cases s with
  | mk l =>
    show String.mk ([] ++ l) = String.mk l
    rw [List.nil_append]

theorem getLast?_cons_getD {α : Type} (d : α) (ds : List α) (x : α) :
    ((d :: ds).getLast?).getD x = (ds.getLast?).getD d := by
  induction ds generalizing d with
  | nil => rfl
  | cons d2 ds2 ih =>
    cases hq : (d2 :: ds2).getLast? with
    | none => exact absurd (List.getLast?_eq_none_iff.mp hq) (by simp)
    | some y =>
      rw [List.getLast?_cons_cons, hq]
      rfl

theorem foldSources_spec (ds : List (List Source)) :
    ∀ (st : ChatState) (H : List Message) (m : Message),
      st.chatHistory = H ++ [m] → m.role = Role.assistant →
      (ds.foldl (fun s d => onSources d s) st).chatHistory
        = H ++ [{ m with sources := (ds.getLast?).getD m.sources }] := by
  induction ds with
  | nil =>
    intro st H m hst hrole
    simpa using hst
  | cons d ds ih =>
    intro st H m hst hrole
    rw [List.foldl_cons]
    have hstep : (onSources d st).chatHistory = H ++ [{ m with sources := d }] := by
      unfold onSources
      rw [hst, applyLastAssistant_append, if_pos hrole]
    rw [ih (onSources d st) H { m with sources := d } hstep hrole]
    rw [getLast?_cons_getD]

theorem onDone_of_stopped (st : ChatState) (h1 : st.isLoading = false)
    (h2 : st.activeWebSocket = none) : onDone st = st := by
  cases st
  simp only [onDone] at *
  simp_all

theorem onWsError_of_stopped (st : ChatState) (h1 : st.isLoading = false)
    (h2 : st.activeWebSocket = none) : onWsError st = st := by
  cases st
  simp only [onWsError] at *
  simp_all

theorem applyLastAssistant_unchanged (f : Message → Message) (h : List Message)
    (hcond : h = [] ∨ ∀ m, h.getLast? = some m → m.role ≠ Role.assistant) :
    applyLastAssistant f h = h := by
  cases hl : h.getLast? with
  | none =>
    rw [List.getLast?_eq_none_iff.mp hl]
    rfl
  | some m =>
    rcases hcond with rfl | hcond
    · simp at hl
    · exact applyLastAssistant_not_assistant f h m hl (hcond m hl)

/-! ## Claim theorems -/

/-- Claim C1 (counterexample): for the final buffer `A<think>B</think>C` the
claim predicts a visible answer equal to the text before the open marker
concatenated with the text after the close marker, i.e. `AC`; the view
computed by `ChatBubble` is `C` — the text streamed before the open marker is
dropped from the visible answer. -/
theorem C1_counterexample :
    (chatBubbleParse ⟨Role.assistant, "A<think>B</think>C", [], none, none⟩
        false false).mainContent = "C" ∧
    (chatBubbleParse ⟨Role.assistant, "A<think>B</think>C", [], none, none⟩
        false false).mainContent ≠ "A" ++ "C" := by
  decide

/-- Claim C1 (amended): writing the final buffer as
`before ++ <think> ++ mid ++ </think> ++ after`, with no open marker inside
`before` and no close marker before the explicit one, the reasoning body is
the trimmed `mid` and the visible answer is the trimmed `after` alone: the
text before the open marker is dropped, and both derived views are trimmed. -/
theorem C1_reasoning_split (A B C : String) (role : Role) (src : List Source)
    (persona timestamp : Option String) (isLast isLoading : Bool)
    (hA : hasOccur thinkOpen A.data = false)
    (hAB : hasOccur thinkClose (A.data ++ (thinkOpen ++ B.data)) = false) :
    chatBubbleParse
        ⟨role, ⟨A.data ++ (thinkOpen ++ (B.data ++ (thinkClose ++ C.data)))⟩, src, persona,
          timestamp⟩ isLast isLoading
      = { isThinkingActive := false, thoughtContent := strTrim B, mainContent := strTrim C,
          activeSnippet := "Thinking..." } :=
  chatBubbleParse_closed A B C role src persona timestamp isLast isLoading hA hAB

/-- Claim C1 (witness): concrete instance of the amended statement. -/
theorem C1_reasoning_split_witness :
    hasOccur thinkOpen ("Hi " : String).data = false ∧
    hasOccur thinkClose (("Hi " : String).data ++ (thinkOpen ++ ("why" : String).data))
      = false ∧
    chatBubbleParse
        ⟨Role.assistant,
          ⟨("Hi " : String).data ++
            (thinkOpen ++ (("why" : String).data ++ (thinkClose ++ ("Done." : String).data)))⟩,
          [], none, none⟩ false false
      = { isThinkingActive := false, thoughtContent := strTrim "why",
          mainContent := strTrim "Done.", activeSnippet := "Thinking..." } :=
  ⟨by decide, by decide,
    C1_reasoning_split "Hi " "why" "Done." Role.assistant [] none none false false
      (by decide) (by decide)⟩

/-- Claim C2: the token accumulator appends payloads in arrival order, so any
two partitions of the same total text leave identical accumulator and state,
the final assistant content is the full concatenation, and the derived view
is a function of that concatenation alone. -/
theorem C2_chunking_invariance (H : List Message) (persona : Option String) (b : Bool)
    (a : Option Nat) (ts1 ts2 : List String) (h : strJoin ts1 = strJoin ts2) :
    runTokens ts1 "" ⟨H ++ [⟨Role.assistant, "", [], persona, none⟩], b, a⟩
      = runTokens ts2 "" ⟨H ++ [⟨Role.assistant, "", [], persona, none⟩], b, a⟩ ∧
    (runTokens ts1 "" ⟨H ++ [⟨Role.assistant, "", [], persona, none⟩], b, a⟩).2.chatHistory
      = H ++ [⟨Role.assistant, strJoin ts1, [], persona, none⟩] ∧
    ∀ il ld : Bool,
      chatBubbleParse ⟨Role.assistant, strJoin ts1, [], persona, none⟩ il ld
        = chatBubbleParse ⟨Role.assistant, strJoin ts2, [], persona, none⟩ il ld := by
  have h1 := runTokens_spec ts1 "" ⟨Role.assistant, "", [], persona, none⟩ H b a rfl rfl
  have h2 := runTokens_spec ts2 "" ⟨Role.assistant, "", [], persona, none⟩ H b a rfl rfl
  rw [str_nil_append] at h1 h2
  refine ⟨?_, ?_, ?_⟩
  · rw [h1, h2, h]
  · rw [h1]
  · intro il ld
    rw [h]

/-- Claim C2 (witness): two different chunkings of `<think>x</think>ok`. -/
theorem C2_chunking_invariance_witness :
    strJoin ["<think>", "x</th", "ink>ok"] = strJoin ["<think>x</think>ok"] ∧
    (runTokens ["<think>", "x</th", "ink>ok"] ""
        ⟨[] ++ [⟨Role.assistant, "", [], none, none⟩], true, some 0⟩
      = runTokens ["<think>x</think>ok"] ""
        ⟨[] ++ [⟨Role.assistant, "", [], none, none⟩], true, some 0⟩ ∧
    (runTokens ["<think>", "x</th", "ink>ok"] ""
        ⟨[] ++ [⟨Role.assistant, "", [], none, none⟩], true, some 0⟩).2.chatHistory
      = [] ++ [⟨Role.assistant, strJoin ["<think>", "x</th", "ink>ok"], [], none, none⟩] ∧
    ∀ il ld : Bool,
      chatBubbleParse
          ⟨Role.assistant, strJoin ["<think>", "x</th", "ink>ok"], [], none, none⟩ il ld
        = chatBubbleParse
          ⟨Role.assistant, strJoin ["<think>x</think>ok"], [], none, none⟩ il ld) :=
  ⟨by decide,
    C2_chunking_invariance [] none true (some 0) ["<think>", "x</th", "ink>ok"]
      ["<think>x</think>ok"] (by decide)⟩

/-- Claim C3: after `stopGeneration` closes and invalidates the in-flight
turn's handle, delivering any sequence of late token, sources or done events
through that handle leaves the session state (chat history, message content,
source lists, loading status) exactly as it stood at cancellation. -/
theorem C3_cancel_late_events (w : World) (c : TurnClosure) (evs : List StreamEvent)
    (h : w.st.activeWebSocket = some c.wsId) :
    deliverAll (stopGenerationW w) c evs = (stopGenerationW w, c) :=
  deliverAll_closed evs (stopGenerationW w) c (stopGenerationW_closes w c.wsId h)

/-- Claim C3 (witness): a late token after cancellation of the active turn. -/
theorem C3_cancel_late_events_witness :
    (⟨⟨[⟨Role.user, "q", [], none, none⟩, ⟨Role.assistant, "par", [], none, none⟩], true,
        some 5⟩, [5], 6⟩ : World).st.activeWebSocket = some (5 : Nat) ∧
    deliverAll
        (stopGenerationW ⟨⟨[⟨Role.user, "q", [], none, none⟩,
          ⟨Role.assistant, "par", [], none, none⟩], true, some 5⟩, [5], 6⟩)
        ⟨5, "par"⟩ [StreamEvent.token "X", StreamEvent.sources [⟨"f.pdf", none, none⟩],
          StreamEvent.done]
      = (stopGenerationW ⟨⟨[⟨Role.user, "q", [], none, none⟩,
          ⟨Role.assistant, "par", [], none, none⟩], true, some 5⟩, [5], 6⟩, ⟨5, "par"⟩) :=
  ⟨rfl,
    C3_cancel_late_events
      ⟨⟨[⟨Role.user, "q", [], none, none⟩, ⟨Role.assistant, "par", [], none, none⟩], true,
        some 5⟩, [5], 6⟩
      ⟨5, "par"⟩
      [StreamEvent.token "X", StreamEvent.sources [⟨"f.pdf", none, none⟩], StreamEvent.done]
      rfl⟩

/-- Claim C4 (counterexample): the message with content `" A"` (no marker
syntax inside) and one source does not round-trip: decode trims the stored
content, returning `"A"`. -/
theorem C4_counterexample :
    roundTrip ⟨Role.assistant, " A", [⟨"doc.pdf", some 3, none⟩], none, none⟩
      ≠ ⟨Role.assistant, " A", [⟨"doc.pdf", some 3, none⟩], none, none⟩ ∧
    (roundTrip ⟨Role.assistant, " A", [⟨"doc.pdf", some 3, none⟩], none, none⟩).content
      = "A" := by
  decide

/-- Claim C4 (amended): `decode (encode m) = m` for every message whose
content holds no occurrence of `<sources>` and equals its own trim; for other
contents the decoded content is the trimmed original. -/
theorem C4_roundtrip (m : Message)
    (h1 : hasOccur sourcesOpen m.content.data = false)
    (h2 : strTrim m.content = m.content) : roundTrip m = m :=
  roundTrip_eq m h1 h2

/-- Claim C4 (witness): scenario C — content `"Answer text"` with source
`doc.pdf` page 3 round-trips exactly. -/
theorem C4_roundtrip_witness :
    hasOccur sourcesOpen ("Answer text" : String).data = false ∧
    strTrim "Answer text" = "Answer text" ∧
    roundTrip ⟨Role.assistant, "Answer text", [⟨"doc.pdf", some 3, none⟩], none, none⟩
      = ⟨Role.assistant, "Answer text", [⟨"doc.pdf", some 3, none⟩], none, none⟩ :=
  ⟨by decide, by decide,
    C4_roundtrip ⟨Role.assistant, "Answer text", [⟨"doc.pdf", some 3, none⟩], none, none⟩
      (by decide) (by decide)⟩

/-- Claim C5 (counterexample): with buffer `<think> x ` and a `done` arriving
before any close marker, the claim says the reasoning body is all text after
the open marker (`" x "`); the view trims it to `"x"`. -/
theorem C5_counterexample :
    (chatBubbleParse ⟨Role.assistant, "<think> x ", [], none, none⟩ true false).mainContent
      = "" ∧
    (chatBubbleParse ⟨Role.assistant, "<think> x ", [], none, none⟩ true false).thoughtContent
      = "x" ∧
    ("x" : String) ≠ " x " := by
  decide

/-- Claim C5 (amended): when the open marker is present without a close
marker and the turn has finished loading (`done` clears the loading flag),
the parser finalizes without faulting: the visible answer is empty, the
reasoning body is the trimmed text after the open marker, the live-thinking
state is off, and `done` marks the turn finished. -/
theorem C5_truncated_reasoning (msg : Message) (s : Nat) (isLast : Bool) (st : ChatState)
    (hopen : idxOf thinkOpen msg.content.data = some s)
    (hclose : idxOf thinkClose msg.content.data = none) :
    (chatBubbleParse msg isLast false).mainContent = "" ∧
    (chatBubbleParse msg isLast false).thoughtContent
      = strTrim ⟨msg.content.data.drop (s + 7)⟩ ∧
    (chatBubbleParse msg isLast false).isThinkingActive = false ∧
    (onDone st).isLoading = false ∧ (onDone st).activeWebSocket = none := by
  obtain ⟨hm, ht, ha⟩ := chatBubbleParse_active msg s isLast false hopen hclose
  refine ⟨hm, ht, ?_, rfl, rfl⟩
  rw [ha]
  exact Bool.and_false isLast

/-- Claim C5 (witness): scenario B — `<think>still reason` then `done` gives
body `"still reason"` and empty visible answer. -/
theorem C5_truncated_reasoning_witness :
    idxOf thinkOpen ("<think>still reason" : String).data = some 0 ∧
    idxOf thinkClose ("<think>still reason" : String).data = none ∧
    ((chatBubbleParse ⟨Role.assistant, "<think>still reason", [], none, none⟩ true
        false).mainContent = "" ∧
      (chatBubbleParse ⟨Role.assistant, "<think>still reason", [], none, none⟩ true
        false).thoughtContent
        = strTrim ⟨("<think>still reason" : String).data.drop (0 + 7)⟩ ∧
      (chatBubbleParse ⟨Role.assistant, "<think>still reason", [], none, none⟩ true
        false).isThinkingActive = false ∧
      (onDone ⟨[], true, some 0⟩).isLoading = false ∧
      (onDone ⟨[], true, some 0⟩).activeWebSocket = none) ∧
    strTrim ⟨("<think>still reason" : String).data.drop (0 + 7)⟩ = "still reason" :=
  ⟨by decide, by decide,
    C5_truncated_reasoning ⟨Role.assistant, "<think>still reason", [], none, none⟩ 0 true
      ⟨[], true, some 0⟩ (by decide) (by decide),
    by decide⟩

/-- Claim C6: in every reachable store state at most one WebSocket handle is
open, and `sendMessage` first force-terminates the active turn — its handle
is closed and absent from the new open set, whose only element is the fresh
handle that becomes the stored reference — before opening the new
connection. -/
theorem C6_single_transport (w : World) (hw : Reach w) :
    w.openSockets.length ≤ 1 ∧
    ∀ (content persona : String) (i : Nat), w.st.activeWebSocket = some i →
      (startTurn w content persona).1.openSockets = [(stopGenerationW w).nextId] ∧
      i ∉ (startTurn w content persona).1.openSockets ∧
      (startTurn w content persona).1.st.activeWebSocket
        = some (stopGenerationW w).nextId := by
  obtain ⟨hsock, hfresh, hact⟩ := reach_worldInv w hw
  constructor
  · rcases hsock with hnil | ⟨i, hopen, _⟩
    · rw [hnil]
      simp
    · rw [hopen]
      simp
  · intro content persona i hi
    have hnil := stopGenerationW_open_nil w hsock
    have hopen' : (startTurn w content persona).1.openSockets
        = [(stopGenerationW w).nextId] := by
      show (stopGenerationW w).openSockets ++ [(stopGenerationW w).nextId] = _
      rw [hnil]
      rfl
    refine ⟨hopen', ?_, rfl⟩
    rw [hopen', stopGenerationW_nextId]
    have hlt := hact i hi
    simp
    omega

/-- Claim C6 (witness): the invariant at the initial store state. -/
theorem C6_single_transport_witness :
    initWorld.openSockets.length ≤ 1 ∧
    ∀ (content persona : String) (i : Nat), initWorld.st.activeWebSocket = some i →
      (startTurn initWorld content persona).1.openSockets
        = [(stopGenerationW initWorld).nextId] ∧
      i ∉ (startTurn initWorld content persona).1.openSockets ∧
      (startTurn initWorld content persona).1.st.activeWebSocket
        = some (stopGenerationW initWorld).nextId :=
  C6_single_transport initWorld Relation.ReflTransGen.refl

/-- Claim C7: `stopGeneration` closes the stored handle, clears the loading
flag and the reference immediately, is idempotent, leaves the chat history
(and hence every accumulated partial content) untouched, and a late `done`
or `error` arriving right after cancellation changes nothing. -/
theorem C7_cancel_contract (w : World) (i : Nat)
    (h : w.st.activeWebSocket = some i) :
    (stopGenerationW w).st.chatHistory = w.st.chatHistory ∧
    i ∉ (stopGenerationW w).openSockets ∧
    (stopGenerationW w).st.isLoading = false ∧
    (stopGenerationW w).st.activeWebSocket = none ∧
    stopGenerationW (stopGenerationW w) = stopGenerationW w ∧
    onDone (stopGenerationW w).st = (stopGenerationW w).st ∧
    onWsError (stopGenerationW w).st = (stopGenerationW w).st := by
  obtain ⟨hl, ha⟩ := stopGenerationW_state w
  exact ⟨stopGenerationW_history w, stopGenerationW_closes w i h, hl, ha,
    stopGenerationW_idem w, onDone_of_stopped _ hl ha, onWsError_of_stopped _ hl ha⟩

/-- Claim C7 (witness): cancellation of a concrete in-flight turn. -/
theorem C7_cancel_contract_witness :
    (⟨⟨[⟨Role.assistant, "half an answer", [], none, none⟩], true, some 2⟩, [2], 3⟩
        : World).st.activeWebSocket = some (2 : Nat) ∧
    ((stopGenerationW ⟨⟨[⟨Role.assistant, "half an answer", [], none, none⟩], true, some 2⟩,
        [2], 3⟩).st.chatHistory
      = (⟨⟨[⟨Role.assistant, "half an answer", [], none, none⟩], true, some 2⟩, [2], 3⟩
        : World).st.chatHistory ∧
    (2 : Nat) ∉ (stopGenerationW ⟨⟨[⟨Role.assistant, "half an answer", [], none, none⟩],
        true, some 2⟩, [2], 3⟩).openSockets ∧
    (stopGenerationW ⟨⟨[⟨Role.assistant, "half an answer", [], none, none⟩], true, some 2⟩,
        [2], 3⟩).st.isLoading = false ∧
    (stopGenerationW ⟨⟨[⟨Role.assistant, "half an answer", [], none, none⟩], true, some 2⟩,
        [2], 3⟩).st.activeWebSocket = none ∧
    stopGenerationW (stopGenerationW ⟨⟨[⟨Role.assistant, "half an answer", [], none, none⟩],
        true, some 2⟩, [2], 3⟩)
      = stopGenerationW ⟨⟨[⟨Role.assistant, "half an answer", [], none, none⟩], true,
        some 2⟩, [2], 3⟩ ∧
    onDone (stopGenerationW ⟨⟨[⟨Role.assistant, "half an answer", [], none, none⟩], true,
        some 2⟩, [2], 3⟩).st
      = (stopGenerationW ⟨⟨[⟨Role.assistant, "half an answer", [], none, none⟩], true,
        some 2⟩, [2], 3⟩).st ∧
    onWsError (stopGenerationW ⟨⟨[⟨Role.assistant, "half an answer", [], none, none⟩], true,
        some 2⟩, [2], 3⟩).st
      = (stopGenerationW ⟨⟨[⟨Role.assistant, "half an answer", [], none, none⟩], true,
        some 2⟩, [2], 3⟩).st) :=
  ⟨rfl,
    C7_cancel_contract
      ⟨⟨[⟨Role.assistant, "half an answer", [], none, none⟩], true, some 2⟩, [2], 3⟩ 2 rfl⟩

/-- Claim C8: decode never raises — whenever the content carries a trailing
`<sources>…</sources>` block whose payload is not valid JSON, the message is
returned with its content string unmodified and its (empty) source list
untouched. -/
theorem C8_decode_never_throws (msg : Message) (pre payload : String)
    (hm : matchSources msg.content = some (pre, payload))
    (hbad : parseSourcesJson payload = none) :
    parseMessageContent msg = msg := by
  unfold parseMessageContent
  by_cases hc : msg.content = ""
  · simp [hc]
  · simp only [hc, if_false, hm]
    by_cases hp : payload = ""
    · simp [hp]
    · simp [hp, hbad]

/-- Claim C8 (witness): a trailing block with non-JSON payload decodes to the
original message. -/
theorem C8_decode_never_throws_witness :
    matchSources "hello<sources>notjson</sources>" = some ("hello", "notjson") ∧
    parseSourcesJson "notjson" = none ∧
    parseMessageContent
        ⟨Role.assistant, "hello<sources>notjson</sources>", [], none, none⟩
      = ⟨Role.assistant, "hello<sources>notjson</sources>", [], none, none⟩ :=
  ⟨by decide, by decide,
    C8_decode_never_throws
      ⟨Role.assistant, "hello<sources>notjson</sources>", [], none, none⟩
      "hello" "notjson" (by decide) (by decide)⟩

/-- Claim C9: each `sources` event overwrites the whole source list of the
last assistant message with its own payload, so a burst of such events ends
with exactly the last payload — the same state as applying the last event
alone; nothing is merged or appended. -/
theorem C9_sources_last_write_wins (st : ChatState) (H : List Message) (m : Message)
    (hst : st.chatHistory = H ++ [m]) (hrole : m.role = Role.assistant)
    (ds : List (List Source)) (hne : ds ≠ []) :
    (ds.foldl (fun s d => onSources d s) st).chatHistory
      = H ++ [{ m with sources := ds.getLast hne }] ∧
    (ds.foldl (fun s d => onSources d s) st).chatHistory
      = (onSources (ds.getLast hne) st).chatHistory := by
  have hfold := foldSources_spec ds st H m hst hrole
  have hlast : ds.getLast? = some (ds.getLast hne) := List.getLast?_eq_getLast ds hne
  rw [hlast] at hfold
  simp only [Option.getD_some] at hfold
  refine ⟨hfold, ?_⟩
  rw [hfold]
  unfold onSources
  rw [hst, applyLastAssistant_append, if_pos hrole]

/-- Claim C9 (witness): two sources events; the second payload wins. -/
theorem C9_sources_last_write_wins_witness :
    (⟨[⟨Role.assistant, "ans", [], none, none⟩], true, some 0⟩ : ChatState).chatHistory
      = [] ++ [⟨Role.assistant, "ans", [], none, none⟩] ∧
    (Role.assistant = Role.assistant) ∧
    ([[⟨"a.pdf", none, none⟩], [⟨"b.pdf", some 2, none⟩]] : List (List Source)) ≠ [] ∧
    (([[⟨"a.pdf", none, none⟩], [⟨"b.pdf", some 2, none⟩]] : List (List Source)).foldl
        (fun s d => onSources d s)
        ⟨[⟨Role.assistant, "ans", [], none, none⟩], true, some 0⟩).chatHistory
      = [] ++ [{ (⟨Role.assistant, "ans", [], none, none⟩ : Message) with
          sources := ([[⟨"a.pdf", none, none⟩], [⟨"b.pdf", some 2, none⟩]]
            : List (List Source)).getLast (by decide) }] ∧
    (([[⟨"a.pdf", none, none⟩], [⟨"b.pdf", some 2, none⟩]] : List (List Source)).foldl
        (fun s d => onSources d s)
        ⟨[⟨Role.assistant, "ans", [], none, none⟩], true, some 0⟩).chatHistory
      = (onSources (([[⟨"a.pdf", none, none⟩], [⟨"b.pdf", some 2, none⟩]]
            : List (List Source)).getLast (by decide))
          ⟨[⟨Role.assistant, "ans", [], none, none⟩], true, some 0⟩).chatHistory :=
  ⟨rfl, rfl, by decide,
    C9_sources_last_write_wins
      ⟨[⟨Role.assistant, "ans", [], none, none⟩], true, some 0⟩ []
      ⟨Role.assistant, "ans", [], none, none⟩ rfl rfl
      [[⟨"a.pdf", none, none⟩], [⟨"b.pdf", some 2, none⟩]] (by decide) |>.1,
    C9_sources_last_write_wins
      ⟨[⟨Role.assistant, "ans", [], none, none⟩], true, some 0⟩ []
      ⟨Role.assistant, "ans", [], none, none⟩ rfl rfl
      [[⟨"a.pdf", none, none⟩], [⟨"b.pdf", some 2, none⟩]] (by decide) |>.2⟩

/-- Claim C10: a token or sources event arriving when the history is empty,
or when its last message is not assistant-authored, leaves the chat history
completely unchanged — stream events can never mutate a user-authored
message, and no fault is raised. -/
theorem C10_guarded_stream_updates (st : ChatState) (d full : String) (l : List Source)
    (h : st.chatHistory = [] ∨
      ∀ m, st.chatHistory.getLast? = some m → m.role ≠ Role.assistant) :
    (onToken d full st).2.chatHistory = st.chatHistory ∧
    (onSources l st).chatHistory = st.chatHistory := by
  constructor
  · show applyLastAssistant _ st.chatHistory = st.chatHistory
    exact applyLastAssistant_unchanged _ _ h
  · show applyLastAssistant _ st.chatHistory = st.chatHistory
    exact applyLastAssistant_unchanged _ _ h

/-- Claim C10 (witness): a token and a sources event on a history ending in
a user message change nothing. -/
theorem C10_guarded_stream_updates_witness :
    (onToken "x" "acc" ⟨[⟨Role.user, "hi", [], none, none⟩], true, some 0⟩).2.chatHistory
      = (⟨[⟨Role.user, "hi", [], none, none⟩], true, some 0⟩ : ChatState).chatHistory ∧
    (onSources [⟨"a.pdf", none, none⟩]
        ⟨[⟨Role.user, "hi", [], none, none⟩], true, some 0⟩).chatHistory
      = (⟨[⟨Role.user, "hi", [], none, none⟩], true, some 0⟩ : ChatState).chatHistory :=
  C10_guarded_stream_updates ⟨[⟨Role.user, "hi", [], none, none⟩], true, some 0⟩ "x" "acc"
    [⟨"a.pdf", none, none⟩]
    (Or.inr (by
      intro m hm
      simp only [List.getLast?_singleton, Option.some.injEq] at hm
      rw [← hm]
      decide))
